import Mathlib

/-!
Verification of the yahap HTML tokenizer sources against its specification.

The Rust sources are shallowly embedded:
pure functions become Lean functions, the mutable structs become records
threaded through the operations, fixed-size arrays become sparse
association lists (an absent key is the array's zero/empty initial value),
and any operation that can panic (out-of-bounds indexing, `unwrap` of a
missing value) returns `Option`, with `none` marking the panic.
Machine integers stay in `Nat`/`Int`; the `u8` truncating casts are made
explicit with `% 256` (the `i16` ids never leave `[-511, 511]` on the
paths modelled here, so `Int` is exact for them).
-/

/-- Association-list lookup: the model of reading one cell of a vector or
hash map whose unwritten cells hold the default value. First match wins,
so consing a new pair models a point update. -/
def alookup {α β : Type} [DecidableEq α] (k : α) : List (α × β) → Option β
  | [] => none
  | (a, b) :: t => if a = k then some b else alookup k t

/-- UTF-8 encoding of one char (the standard 1-4 byte layout). -/
def charUtf8 (c : Char) : List Nat :=
  let n := c.toNat
  if n < 128 then [n]
  else if n < 2048 then [192 + n / 64, 128 + n % 64]
  else if n < 65536 then [224 + n / 4096, 128 + n / 64 % 64, 128 + n % 64]
  else [240 + n / 262144, 128 + n / 4096 % 64, 128 + n / 64 % 64, 128 + n % 64]

/-- UTF-8 bytes of a string, as `Nat`s (Rust `str::as_bytes`). -/
def utf8Bytes (s : String) : List Nat := s.data.flatMap charUtf8

/-- Byte length of a string (Rust `str::len`). -/
def byteLen (s : String) : Nat := (utf8Bytes s).length

/-- Rust `str::to_lowercase` (ASCII-faithful). -/
def lowerStr (s : String) : String := String.mk (s.data.map Char.toLower)

/-- Rust `str::to_uppercase` (ASCII-faithful). -/
def upperStr (s : String) : String := String.mk (s.data.map Char.toUpper)

/-- Whitespace test used by `trim` (space, tab, LF, CR). -/
def isWsChar (c : Char) : Bool :=
  c.toNat = 32 || c.toNat = 9 || c.toNat = 10 || c.toNat = 13

/-- Rust `str::trim`: drop whitespace from both ends. -/
def trimStr (s : String) : String :=
  String.mk (((s.data.dropWhile isWsChar).reverse.dropWhile isWsChar).reverse)

/-- Split a char list at every separator; like Rust `str::split`, the
result always has at least one (possibly empty) segment. -/
def splitChars (p : Char → Bool) : List Char → List (List Char)
  | [] => [[]]
  | c :: t =>
    if p c then [] :: splitChars p t
    else
      match splitChars p t with
      | [] => [[c]]
      | seg :: rest => (c :: seg) :: rest

/-- Rust `str::split`. -/
def splitStr (p : Char → Bool) (s : String) : List String :=
  (splitChars p s.data).map String.mk

/-! ## html_heuristics.rs -/

/-- `MAX_STRINGS` from html_heuristics.rs. -/
def MAX_STRINGS : Nat := 1024

/-- `ALL_TWO_CHARS` from html_heuristics.rs: built by two nested loops
`for i in 0u8..255 { for j in 0u8..255 { push (i as char, j as char) } }`.
Both loop bounds are exclusive, so the layout stride is 255. -/
def allTwoChars : List String :=
  (List.range 255).flatMap
    (fun i => (List.range 255).map (fun j => String.mk [Char.ofNat i, Char.ofNat j]))

/-- `HtmlHeuristics::get_two_char_string(i, j)`: indexes `ALL_TWO_CHARS`
at `i * 256 + j`; `none` models the index-out-of-bounds panic. -/
def getTwoCharString (i j : Nat) : Option String :=
  allTwoChars[i * 256 + j]?

/-- The `HtmlHeuristics` struct. `chars` is the 256x256 `i16` matrix,
`attrData` maps a tag id to its (lazily allocated) 256-entry `u8` vector:
an absent tag id models the initial `Vec::new()` whose indexing panics. -/
structure HtmlHeuristics where
  chars : List ((Nat × Nat) × Int)
  strings : List (Nat × String)
  tagData : List (Nat × List Nat)
  addedTags : List (String × Int)
  attributes : List (Nat × List Nat)
  attrData : List (Nat × List (Nat × Nat))
  addedAttributes : List (String × Nat)
  attrs : List (Nat × String)
deriving DecidableEq

/-- `HtmlHeuristics::new()`: every cell of every table still holds its
zero/empty initial value. -/
def HtmlHeuristics.empty : HtmlHeuristics := ⟨[], [], [], [], [], [], [], []⟩

/-- Read one cell of the `chars` matrix (unwritten cells are 0). -/
def charsGet (s : HtmlHeuristics) (i j : Nat) : Int :=
  (alookup (i, j) s.chars).getD 0

/-- `HtmlHeuristics::match_tag(ch1, ch2)`: the source reads
`self.chars[ch1 as usize][ch1 as usize]`, using `ch1` for both indices. -/
def HtmlHeuristics.matchTag (s : HtmlHeuristics) (ch1 ch2 : Nat) : Int :=
  charsGet s ch1 ch1

/-- `HtmlHeuristics::get_string_by_id(id)`: reads `strings[id >> 1]`,
returning the empty string for a `None` entry; `none` models the panic
when `id >> 1` is outside the 1024-entry vector. -/
def HtmlHeuristics.getStringById (s : HtmlHeuristics) (id : Nat) : Option String :=
  if id / 2 < MAX_STRINGS then some ((alookup (id / 2) s.strings).getD "") else none

/-- `HtmlHeuristics::set_hash(ch1, ch2, id)`: chars are cast with
`as usize`, so a code point above 255 overruns the matrix (panic). -/
def setHash (s : HtmlHeuristics) (ch1 ch2 : Char) (id : Int) :
    Option (HtmlHeuristics × Bool) :=
  if 256 ≤ ch1.toNat ∨ 256 ≤ ch2.toNat then none
  else if charsGet s ch1.toNat ch2.toNat ≠ 0 then some (s, false)
  else some ({ s with chars := ((ch1.toNat, ch2.toNat), id) :: s.chars }, true)

/-- The sequence of `set_hash` calls for a single-char tag, one per
possible terminator, each early-returning `false` on a taken slot. -/
def setHashSeq (ch : Char) (id : Int) :
    HtmlHeuristics → List Char → Option (HtmlHeuristics × Bool)
  | s, [] => some (s, true)
  | s, c :: t =>
    match setHash s ch c id with
    | none => none
    | some (s2, b) => if b then setHashSeq ch id s2 t else some (s2, false)

/-- `tag_data[data_id].push(tag.as_bytes())`: the tag's bytes are added
to the binary data slot. -/
def tagDataPush (s : HtmlHeuristics) (dataId : Nat) (bytes : List Nat) : HtmlHeuristics :=
  { s with tagData := (dataId, ((alookup dataId s.tagData).getD []) ++ bytes) :: s.tagData }

/-- `HtmlHeuristics::add_tag_internal(tag, tag_id, data_id)`. The source
takes `tag.chars()` and calls `nth(1)` (the char at index 1), then for
the multi-char branch calls `nth(1)` again on the already-advanced
iterator (the char at index 3); each `unwrap` of a missing char is a
panic (`none`). The terminator chars for the `len == 1` branch are
space, tab, CR, LF and the char 62. -/
def addTagInternal (s : HtmlHeuristics) (tag : String) (tagId dataId : Nat) :
    Option (HtmlHeuristics × Bool) :=
  if byteLen tag = 0 then some (s, false)
  else
    let s1 := tagDataPush s dataId (utf8Bytes tag)
    match tag.data[1]? with
    | none => none
    | some firstCh =>
      if byteLen tag = 1 then
        setHashSeq firstCh (-(Int.ofNat dataId)) s1
          [Char.ofNat 32, Char.ofNat 9, Char.ofNat 13, Char.ofNat 10, Char.ofNat 62]
      else
        match tag.data[3]? with
        | none => none
        | some secondCh => setHash s1 firstCh secondCh (Int.ofNat dataId)

/-- Read `attr_data[id][idx]`: `none` models the panic when `idx` is out
of range or the tag's 256-entry vector was never allocated. -/
def attrDataGet (s : HtmlHeuristics) (id idx : Nat) : Option Nat :=
  if 256 ≤ idx then none
  else
    match alookup id s.attrData with
    | none => none
    | some m => some ((alookup idx m).getD 0)

/-- `HtmlHeuristics::add_attribute(attr, id, attr_id)`: stores the
attribute's bytes under `attr_id` and writes `attr_id as u8` into the
tag's per-first-byte table (the first char is cast `as u8`, hence the
`% 256`). The empty-data match arm is unreachable because a string with
a nonzero byte length has a first char. -/
def addAttribute (s : HtmlHeuristics) (attr : String) (id : Nat) (attrId : Nat) :
    Option HtmlHeuristics :=
  if byteLen attr = 0 then some s
  else
    match attr.data with
    | [] => some s
    | c :: _ =>
      let b := c.toNat % 256
      let s1 := { s with attributes := (attrId, utf8Bytes attr) :: s.attributes }
      match alookup id s1.attrData with
      | none => none
      | some m =>
        some { s1 with attrData := (id, (b, attrId % 256) :: m) :: s1.attrData }

/-- The attribute-id step inside the `add_tag` attribute loop: reuse the
global id of an already-known attribute name, or assign the next one
and store the name. -/
def resolveAttrId (s : HtmlHeuristics) (attName : String) : HtmlHeuristics × Nat :=
  match alookup attName s.addedAttributes with
  | some aid => (s, aid)
  | none =>
    let newId := s.addedAttributes.length + 1
    ({ s with
        addedAttributes := (attName, newId) :: s.addedAttributes,
        attrs := (newId, attName) :: s.attrs }, newId)

/-- The attribute-name loop at the end of `add_tag`: trim each name,
skip empties, skip names whose first byte (in either case) is already
registered for this tag, otherwise assign (or reuse) a global attribute
id and record both case variants. Reading `attr_data[id]` with the full
char value panics above 255 (`none`). -/
def processAttrs (id : Nat) : HtmlHeuristics → List String → Option HtmlHeuristics
  | s, [] => some s
  | s, nm :: rest =>
    let attName := trimStr nm
    match attName.data with
    | [] => processAttrs id s rest
    | firstCh :: _ =>
      match attrDataGet s id firstCh.toNat with
      | none => none
      | some v1 =>
        if 0 < v1 then processAttrs id s rest
        else
          match attrDataGet s id firstCh.toUpper.toNat with
          | none => none
          | some v2 =>
            if 0 < v2 then processAttrs id s rest
            else
              let pr := resolveAttrId s attName
              match addAttribute pr.1 attName id (pr.2 * 2) with
              | none => none
              | some s2 =>
                match addAttribute s2 (upperStr attName) id (pr.2 * 2 + 1) with
                | none => none
                | some s3 => processAttrs id s3 rest

/-- `HtmlHeuristics::add_tag(tag_name, attr_names)`: lower-cases and
trims the name, rejects empty, longer than 32 bytes, duplicate, or a
full (255-entry) table, then assigns id `len + 1`, stores the canonical
string, registers the lower- and upper-case forms through
`add_tag_internal` (early `false` return keeps the partial mutations,
as in the source), allocates the attribute table and walks the
comma-separated attribute names. -/
def HtmlHeuristics.addTag (s : HtmlHeuristics) (tagName attrNames : String) :
    Option (HtmlHeuristics × Bool) :=
  let tag := trimStr (lowerStr tagName)
  if byteLen tag = 0 ∨ 32 < byteLen tag ∨ (alookup tag s.addedTags).isSome = true then
    some (s, false)
  else if 255 ≤ s.addedTags.length then some (s, false)
  else
    let id := s.addedTags.length + 1
    let s1 := { s with
        addedTags := (tag, Int.ofNat id) :: s.addedTags,
        strings := (id, tag) :: s.strings }
    match addTagInternal s1 tag id (id * 2) with
    | none => none
    | some (s2, b1) =>
      if b1 = false then some (s2, false)
      else
        match addTagInternal s2 (upperStr tag) id (id * 2 + 1) with
        | none => none
        | some (s3, b2) =>
          if b2 = false then some (s3, false)
          else
            let s4 := { s3 with attrData := (id, []) :: s3.attrData }
            match processAttrs id s4 (splitStr (fun c => c = Char.ofNat 44) (lowerStr attrNames)) with
            | none => none
            | some s5 => some (s5, true)

/-! ## dynamic_string.rs -/

/-- `TEXT_CAPACITY` from dynamic_string.rs; the scratch buffer is an
array of `TEXT_CAPACITY + 1` bytes, so valid write indices are
`0 .. TEXT_CAPACITY`. -/
def TEXT_CAPACITY : Nat := 1024 * 256 - 1

/-- The `DynamicString` struct. The scratch buffer is kept sparse; the
configured codec is an external collaborator and is passed to the
operations as a function argument instead of being stored. -/
structure DynamicString where
  text : String
  buffer : List (Nat × Nat)
  bufferPos : Nat
  length : Nat
deriving DecidableEq

/-- `DynamicString::new(s)`. -/
def DynamicString.new (s : String) : DynamicString :=
  { text := s, buffer := [], bufferPos := 0, length := byteLen s }

/-- `DynamicString::clear()`. -/
def DynamicString.clear (s : DynamicString) : DynamicString :=
  { s with text := "", length := 0, bufferPos := 0 }

/-- One write `self.buffer[self.buffer_pos] = b; self.buffer_pos += 1`:
`none` models the panic when the cursor is past the last array cell. -/
def writeBuf (s : DynamicString) (b : Nat) : Option DynamicString :=
  if s.bufferPos < TEXT_CAPACITY + 1 then
    some { s with buffer := (s.bufferPos, b % 256) :: s.buffer, bufferPos := s.bufferPos + 1 }
  else none

/-- The byte-append loops of `DynamicString::append`. -/
def writeAll : DynamicString → List Nat → Option DynamicString
  | s, [] => some s
  | s, b :: t =>
    match writeBuf s b with
    | none => none
    | some s2 => writeAll s2 t

/-- `DynamicString::append(ch)`: the source tests `ch as u8 <= 127`
(a truncating cast, hence `% 256`) and on that path writes `ch as u8`
directly; otherwise it encodes the char with the configured codec
(`EncoderTrap::Ignore`, modelled by the `enc` argument) and appends the
bytes — the `bytes.len() == 1 || bytes[0] == 63` conditional has
identical branches in the source, and indexing `bytes[0]` panics when
the codec returned no bytes. -/
def DynamicString.append (enc : Char → List Nat) (s : DynamicString) (ch : Char) :
    Option DynamicString :=
  if ch.toNat % 256 ≤ 127 then writeBuf s (ch.toNat % 256)
  else
    let bytes := enc ch
    if bytes.length = 1 then writeAll s bytes
    else
      match bytes[0]? with
      | none => none
      | some b0 => if b0 = 63 then writeAll s bytes else writeAll s bytes

/-- `DynamicString::set_to_string()`: decode the first `buffer_pos`
scratch bytes with the configured codec (`dec` argument), append to the
owned text, reset the cursor. -/
def setToString (dec : List Nat → String) (s : DynamicString) : DynamicString :=
  if 0 < s.bufferPos then
    let decoded := dec ((List.range s.bufferPos).map (fun i => (alookup i s.buffer).getD 0))
    { text := if byteLen s.text = 0 then decoded else s.text ++ decoded,
      buffer := s.buffer,
      bufferPos := 0,
      length := s.length + s.bufferPos }
  else s

/-- Append `n` chars in sequence, stopping at the first panic. -/
def appendChars (enc : Char → List Nat) : DynamicString → List Char → Option DynamicString
  | s, [] => some s
  | s, c :: cs =>
    match DynamicString.append enc s c with
    | none => none
    | some s2 => appendChars enc s2 cs

/-- A codec stand-in for runs that never leave the ASCII fast path. -/
def dummyEnc : Char → List Nat := fun _ => []

/-- `n` successive `append('a')` calls on a fresh `DynamicString`. -/
def appendN (n : Nat) : Option DynamicString :=
  appendChars dummyEnc (DynamicString.new "") (List.replicate n (Char.ofNat 97))

/-! ## html_chunk.rs -/

/-- `ChunkType` from html_chunk.rs. -/
inductive ChunkType where
  | Text
  | OpenTag
  | CloseTag
  | Comment
  | Script
deriving DecidableEq

/-- `MAX_PARAMS` from html_chunk.rs. -/
def MAX_PARAMS : Nat := 256

/-- The `HtmlChunk` struct. The parameter hash of mapping mode becomes an
association list; the stored encoder is kept as its whatwg label, the
codec itself being an external collaborator. -/
structure HtmlChunk where
  chunkType : ChunkType
  hashMode : Bool
  html : String
  chunkOffset : Nat
  chunkLength : Nat
  tag : String
  closure : Bool
  endClosure : Bool
  comments : Bool
  entities : Bool
  ltEntity : Bool
  params : Option (List (String × String))
  paramsCount : Nat
  paramNames : List String
  paramValues : List String
  paramChars : List Nat
  enc : String
deriving DecidableEq

/-- `HtmlChunk::new(hash_mode)`. -/
def HtmlChunk.new (hashMode : Bool) : HtmlChunk :=
  { chunkType := ChunkType.Text
    hashMode := hashMode
    html := ""
    chunkOffset := 0
    chunkLength := 0
    tag := ""
    closure := false
    endClosure := false
    comments := false
    entities := false
    ltEntity := false
    params := if hashMode then some [] else none
    paramsCount := 0
    paramNames := []
    paramValues := []
    paramChars := []
    enc := "ascii" }

/-- `HtmlChunk::clear()`: empties tag and html, lowers the five flags,
zeroes the parameter count, and in hash mode clears the parameter map;
every other field is left as it was. -/
def HtmlChunk.clear (c : HtmlChunk) : HtmlChunk :=
  let c1 := { c with tag := "" }
  let c2 := { c1 with html := "" }
  let c3 := { c2 with
      ltEntity := false, entities := false, comments := false,
      closure := false, endClosure := false }
  let c4 := { c3 with paramsCount := 0 }
  if c4.hashMode then
    match c4.params with
    | some _ => { c4 with params := some [] }
    | none => c4
  else c4

/-- The single-quote char (39); kept as a named constant. -/
def squote : Char := Char.ofNat 39

/-- The double-quote char (34). -/
def dquote : Char := Char.ofNat 34

/-- The char class the value-scanning loop of `generate_param_html`
reacts to: space, tab, single quote, double quote, LF, CR. -/
def isSpecialParamChar (c : Char) : Bool :=
  c = Char.ofNat 32 || c = Char.ofNat 9 || c = squote ||
  c = dquote || c = Char.ofNat 10 || c = Char.ofNat 13

/-- How `make_safe_param_value` rewrites one char: an occurrence of the
quote char becomes its decimal numeric character reference. -/
def escapeChar (q c : Char) : List Char :=
  if c = q then (("&#" ++ toString c.toNat ++ ";").data) else [c]

/-- The inner loop of `make_safe_param_value`: `for j in i..line.len()`
appends `line.chars().nth(j).unwrap()` escaped; the fuel counts the
remaining iterations and each missing char is an `unwrap` panic. -/
def msEscapeLoop (line : String) (q : Char) : Nat → Nat → Option (List Char)
  | 0, _ => some []
  | fuel + 1, j =>
    match line.data[j]? with
    | none => none
    | some ch =>
      match msEscapeLoop line q fuel (j + 1) with
      | none => none
      | some rest => some (escapeChar q ch ++ rest)

/-- The outer loop of `make_safe_param_value`: scan indices
`0..line.len()` (byte length) for the first quote char via
`line.chars().nth(i).unwrap()` (char index — a panic when the byte and
char counts diverge); on a hit, take the first `i` chars and escape the
rest; with no hit return the line unchanged. -/
def msFindLoop (line : String) (q : Char) : Nat → Nat → Option String
  | 0, _ => some line
  | fuel + 1, i =>
    match line.data[i]? with
    | none => none
    | some c =>
      if c = q then
        match msEscapeLoop line q (byteLen line - i) i with
        | none => none
        | some suffix => some (String.mk (line.data.take i ++ suffix))
      else msFindLoop line q fuel (i + 1)

/-- `HtmlChunk::make_safe_param_value(line, quote_ch)`. -/
def makeSafeParamValue (line : String) (q : Char) : Option String :=
  msFindLoop line q (byteLen line) 0

/-- `HtmlChunk::generate_param_html(name, val, ch)`: an empty value emits
the bare name; a value longer than 20 bytes is wrapped in the recorded
quote char `ch`; otherwise a value holding a special char is wrapped in
single quotes; otherwise it is emitted bare. -/
def generateParamHtml (name val : String) (ch : Char) : Option String :=
  if 0 < byteLen val then
    if 20 < byteLen val then
      match makeSafeParamValue val ch with
      | none => none
      | some sv => some (name ++ "=" ++ ch.toString ++ sv ++ ch.toString)
    else if val.data.any isSpecialParamChar then
      match makeSafeParamValue val squote with
      | none => none
      | some sv => some (name ++ "=" ++ squote.toString ++ sv ++ squote.toString)
    else some (name ++ "=" ++ val)
  else some name

/-- Reference form of the escaping contract: every occurrence of the
quote char replaced by its decimal numeric character reference, all
other chars kept. -/
def escapeQuotesRef (val : String) (q : Char) : String :=
  String.mk ((val.data.map (escapeChar q)).flatten)

/-! ## html_parser.rs -/

/-- `HtmlParser::init_whitespaces`: sets the four whitespace bytes. -/
def initWhitespaces (w : List Bool) : List Bool :=
  (((w.set 9 true).set 10 true).set 13 true).set 32 true

/-- The `(tag, attribute_names)` pairs that `HtmlParser::init_heuristics`
registers, in source order. -/
def initTagList : List (String × String) :=
  [("a", "href"), ("b", ""), ("p", "class"), ("i", ""), ("s", ""), ("u", ""),
   ("td", "align,valign,bgcolor,rowspan,colspan"), ("table", "border,width,cellpadding"),
   ("span", ""), ("option", ""), ("select", ""), ("tr", ""), ("div", "class,align"),
   ("img", "src,width,height,title,alt"), ("input", ""), ("br", ""), ("li", ""),
   ("ul", ""), ("ol", ""), ("hr", ""), ("h1", ""), ("h2", ""), ("h3", ""), ("h4", ""),
   ("h5", ""), ("h6", ""), ("font", "size,color"), ("meta", "name,content,http-equiv"),
   ("base", "href"), ("script", ""), ("style", ""), ("html", ""), ("body", "")]

/-- `HtmlParser::init_heuristics`: one `add_tag` call per entry of
`initTagList`, each call's boolean result ignored (the source discards
it too); a panic in any call still propagates. -/
def initHeuristics : Option HtmlHeuristics :=
  initTagList.foldl
    (fun acc pr => acc.bind (fun h => (HtmlHeuristics.addTag h pr.1 pr.2).map Prod.fst))
    (some HtmlHeuristics.empty)

/-- The `HtmlParser` struct (configuration flags and owned state). -/
structure HtmlParserS where
  decodeMiniEntities : Bool
  keepRawHtml : Bool
  keepComments : Bool
  keepScripts : Bool
  extractBetweenTagsOnly : Bool
  markClosedTagsWithParamsAsOpen : Bool
  compressWhitespaceBeforeTag : Bool
  heuristics : HtmlHeuristics
  chunk : HtmlChunk
  encoding : String
  currentPosition : Nat
  dataLength : Nat
  whitespace : List Bool

/-- `HtmlParser::new()`: builds the whitespace table (the source passes
the array by value, so the initialised copy is discarded), seeds the
heuristics table, and assembles the parser; `none` models a panic
during seeding. -/
def htmlParserNew : Option HtmlParserS :=
  let w := List.replicate 256 false
  let _ := initWhitespaces w
  initHeuristics.map (fun h =>
    { decodeMiniEntities := false
      keepRawHtml := false
      keepComments := true
      keepScripts := true
      extractBetweenTagsOnly := true
      markClosedTagsWithParamsAsOpen := true
      compressWhitespaceBeforeTag := true
      heuristics := h
      chunk := HtmlChunk.new false
      encoding := "utf8"
      currentPosition := 0
      dataLength := 0
      whitespace := w })

/-! ## Tokenizer engine (spec-modelled) -/

/-- Modelled from the spec: the tokenizer engine (the repository's
tag_parser.rs and the parser's get-next-token operation, declared in
lib.rs but absent from src/) per section 4.4 — the transition rule that
classifies the token at the current cursor. Helper: first index `i` in
`[start, len)` with `p i`, searched left to right (the fuel equals the
remaining indices). -/
def findFromAux (p : Nat → Bool) (len : Nat) : Nat → Nat → Option Nat
  | 0, _ => none
  | fuel + 1, i =>
    if i < len then (if p i then some i else findFromAux p len fuel (i + 1))
    else none

/-- First index at or after `i` satisfying `p`, within `len`. -/
def findFrom (p : Nat → Bool) (len i : Nat) : Option Nat :=
  findFromAux p len (len - i) i

/-- Does the byte pattern `pat` occur verbatim at index `j`? -/
def matchesAt (buf : List Nat) (j : Nat) (pat : List Nat) : Bool :=
  decide ((buf.drop j).take pat.length = pat)

/-- Modelled from the spec: scan from `start` for the first occurrence of
the terminator `pat` and return the position just past it, consuming to
the end of the buffer when the terminator is missing (the lenient
fallback for unterminated constructs). -/
def scanEndPat (buf : List Nat) (start : Nat) (pat : List Nat) : Nat :=
  match findFrom (fun j => matchesAt buf j pat) buf.length start with
  | some j => j + pat.length
  | none => buf.length

/-- ASCII letter test for the byte after a tag-opening angle bracket. -/
def isLetterByte (b : Nat) : Bool :=
  (65 ≤ b && b ≤ 90) || (97 ≤ b && b ≤ 122)

/-- Byte at an index, with 0 for out-of-range reads. -/
def byteAt (buf : List Nat) (i : Nat) : Nat := buf.getD i 0

/-- Modelled from the spec: the get-next-token operation of the missing
tokenizer engine (tag_parser.rs), section 4.4 of the spec. At end of
buffer it yields `none` (the end-of-input signal, the only failure
outcome); otherwise it classifies the bytes at the cursor — text up to
the next tag start, close tag on 60 47, comment on 60 33 45 45 (to the
matching 45 45 62 or end of buffer), CDATA on the 60 33 91 67 68 65 84
65 91 prefix (to 93 93 62), script (to the closing 60 47 115 99 114
105 112 116 62), open tag on a letter, and otherwise the lenient
fallback that treats the angle bracket as ordinary text — and returns a
chunk `(kind, offset, length)` with the new cursor. -/
def nextTokenModel (buf : List Nat) (pos : Nat) :
    Option ((ChunkType × Nat × Nat) × Nat) :=
  if pos < buf.length then
    match findFrom (fun j => matchesAt buf j [60]) buf.length pos with
    | none => some ((ChunkType.Text, pos, buf.length - pos), buf.length)
    | some k =>
      if pos < k then some ((ChunkType.Text, pos, k - pos), k)
      else if byteAt buf (pos + 1) = 47 then
        let e := scanEndPat buf (pos + 2) [62]
        some ((ChunkType.CloseTag, pos, e - pos), e)
      else if matchesAt buf (pos + 1) [33, 45, 45] then
        let e := scanEndPat buf (pos + 4) [45, 45, 62]
        some ((ChunkType.Comment, pos, e - pos), e)
      else if matchesAt buf (pos + 1) [33, 91, 67, 68, 65, 84, 65, 91] then
        let e := scanEndPat buf (pos + 9) [93, 93, 62]
        some ((ChunkType.Comment, pos, e - pos), e)
      else if matchesAt buf (pos + 1) [115, 99, 114, 105, 112, 116] then
        let e := scanEndPat buf (pos + 1) [60, 47, 115, 99, 114, 105, 112, 116, 62]
        some ((ChunkType.Script, pos, e - pos), e)
      else if isLetterByte (byteAt buf (pos + 1)) then
        let e := scanEndPat buf (pos + 2) [62]
        some ((ChunkType.OpenTag, pos, e - pos), e)
      else
        match findFrom (fun j => matchesAt buf j [60]) buf.length (pos + 1) with
        | none => some ((ChunkType.Text, pos, buf.length - pos), buf.length)
        | some k2 => some ((ChunkType.Text, pos, k2 - pos), k2)
  else none

/-! ## States used by concrete witnesses -/

/-- The heuristics table after registering "abcd" on a fresh table. -/
def afterAbcd : HtmlHeuristics :=
  ((HtmlHeuristics.addTag HtmlHeuristics.empty "abcd" "").getD (HtmlHeuristics.empty, false)).1

/-- The heuristics table after registering "html" on a fresh table. -/
def afterHtml : HtmlHeuristics :=
  ((HtmlHeuristics.addTag HtmlHeuristics.empty "html" "").getD (HtmlHeuristics.empty, false)).1

/-! ## Helper lemmas -/

theorem alookup_cons_self {β : Type} (k : String) (v : β) (l : List (String × β)) :
    alookup k ((k, v) :: l) = some v := by
  simp [alookup]

theorem setHash_addedTags {s s2 : HtmlHeuristics} {a b : Char} {id : Int} {r : Bool}
    (h : setHash s a b id = some (s2, r)) : s2.addedTags = s.addedTags := by
  unfold setHash at h
  split at h
  · exact absurd h (by simp)
  · split at h
    · simp only [Option.some.injEq, Prod.mk.injEq] at h
      rw [← h.1]
    · simp only [Option.some.injEq, Prod.mk.injEq] at h
      rw [← h.1]

theorem setHashSeq_addedTags {ch : Char} {id : Int} :
    ∀ (cs : List Char) (s s2 : HtmlHeuristics) (r : Bool),
      setHashSeq ch id s cs = some (s2, r) → s2.addedTags = s.addedTags := by
  intro cs
  induction cs with
  | nil =>
    intro s s2 r h
    simp only [setHashSeq, Option.some.injEq, Prod.mk.injEq] at h
    rw [← h.1]
  | cons c t ih =>
    intro s s2 r h
    simp only [setHashSeq] at h
    cases hs : setHash s ch c id with
    | none => rw [hs] at h; exact absurd h (by simp)
    | some pr =>
      rw [hs] at h
      obtain ⟨sm, bm⟩ := pr
      cases bm with
      | false =>
        simp only [Bool.false_eq_true, if_false, Option.some.injEq, Prod.mk.injEq] at h
        rw [← h.1]
        exact setHash_addedTags hs
      | true =>
        simp only [if_true] at h
        rw [ih sm s2 r h]
        exact setHash_addedTags hs

theorem addTagInternal_addedTags {s s2 : HtmlHeuristics} {tag : String} {a b : Nat} {r : Bool}
    (h : addTagInternal s tag a b = some (s2, r)) : s2.addedTags = s.addedTags := by
  unfold addTagInternal at h
  split at h
  · simp only [Option.some.injEq, Prod.mk.injEq] at h
    rw [← h.1]
  · dsimp only at h
    split at h
    · exact absurd h (by simp)
    · split at h
      · rw [setHashSeq_addedTags _ _ _ _ h]
        rfl
      · split at h
        · exact absurd h (by simp)
        · rw [setHash_addedTags h]
          rfl

theorem addAttribute_addedTags {s s2 : HtmlHeuristics} {attr : String} {id aid : Nat}
    (h : addAttribute s attr id aid = some s2) : s2.addedTags = s.addedTags := by
  unfold addAttribute at h
  split at h
  · simp only [Option.some.injEq] at h
    rw [← h]
  · split at h
    · simp only [Option.some.injEq] at h
      rw [← h]
    · dsimp only at h
      split at h
      · exact absurd h (by simp)
      · simp only [Option.some.injEq] at h
        rw [← h]

theorem resolveAttrId_addedTags {s : HtmlHeuristics} {attName : String} :
    (resolveAttrId s attName).1.addedTags = s.addedTags := by
  unfold resolveAttrId
  split
  · rfl
  · rfl

theorem processAttrs_addedTags {id : Nat} :
    ∀ (names : List String) (s s2 : HtmlHeuristics),
      processAttrs id s names = some s2 → s2.addedTags = s.addedTags := by
  intro names
  induction names with
  | nil =>
    intro s s2 h
    simp only [processAttrs, Option.some.injEq] at h
    rw [← h]
  | cons nm rest ih =>
    intro s s2 h
    simp only [processAttrs] at h
    split at h
    · exact ih _ _ h
    · split at h
      · exact absurd h (by simp)
      · split at h
        · exact ih _ _ h
        · split at h
          · exact absurd h (by simp)
          · split at h
            · exact ih _ _ h
            · try dsimp only at h
              split at h
              · exact absurd h (by simp)
              · split at h
                · exact absurd h (by simp)
                · rename_i xa sa ha1 xb sb ha2
                  rw [ih _ _ h, addAttribute_addedTags ha2, addAttribute_addedTags ha1,
                    resolveAttrId_addedTags]

theorem addTag_success_lookup {s s2 : HtmlHeuristics} {tagName attrNames : String}
    (h : HtmlHeuristics.addTag s tagName attrNames = some (s2, true)) :
    alookup (trimStr (lowerStr tagName)) s2.addedTags =
      some (Int.ofNat (s.addedTags.length + 1)) := by
  unfold HtmlHeuristics.addTag at h
  dsimp only at h
  split at h
  · simp at h
  · split at h
    · simp at h
    · split at h
      · exact absurd h (by simp)
      · split at h
        · simp at h
        · split at h
          · exact absurd h (by simp)
          · split at h
            · simp at h
            · split at h
              · exact absurd h (by simp)
              · rename_i x1 sA b1 hI1 hb1 x2 sB b2 hI2 hb2 x3 s5 hP
                simp only [Option.some.injEq, Prod.mk.injEq] at h
                rw [← h.1]
                have e5 := processAttrs_addedTags _ _ _ hP
                have e2 := addTagInternal_addedTags hI2
                have e1 := addTagInternal_addedTags hI1
                rw [e5]
                dsimp only at e1 e2 ⊢
                rw [e2, e1]
                exact alookup_cons_self _ _ _

/-! ## Claim theorems -/

/-- C1: evaluation at the failing input. The tag "html" registers
successfully, yet `match_tag` on the first two bytes of its lower-cased
form (104 116) and of its upper-cased form (72 84) returns 0, the
no-match id: `match_tag` reads `chars[ch1][ch1]`, ignoring its second
argument, and registration hashed the chars at indices 1 and 3 of the
name, so no id decoding to "html" is reachable from the first two
bytes. -/
theorem matchTag_misses_registered_tag :
    (HtmlHeuristics.addTag HtmlHeuristics.empty "html" "").map
      (fun p => (p.2, HtmlHeuristics.matchTag p.1 104 116, HtmlHeuristics.matchTag p.1 72 84)) =
      some (true, 0, 0) := by decide

/-- C2 (amended): `add_tag` returns failure whenever the trimmed
lower-cased name is empty, longer than 32 bytes, already registered, or
the table already holds 255 names — in particular a 256th distinct name
fails — and every successful registration maps the canonical name to
the next sequential id `added_tags.len() + 1` (ids start at 1, id 0
meaning no match). A name outside the four failure conditions may still
fail, so they are sufficient, not exhaustive. -/
theorem addTag_failure_and_id (s : HtmlHeuristics) (tagName attrNames : String) :
    ((byteLen (trimStr (lowerStr tagName)) = 0 ∨
        32 < byteLen (trimStr (lowerStr tagName)) ∨
        (alookup (trimStr (lowerStr tagName)) s.addedTags).isSome = true ∨
        255 ≤ s.addedTags.length) →
      HtmlHeuristics.addTag s tagName attrNames = some (s, false)) ∧
    (∀ s2, HtmlHeuristics.addTag s tagName attrNames = some (s2, true) →
      alookup (trimStr (lowerStr tagName)) s2.addedTags =
        some (Int.ofNat (s.addedTags.length + 1))) := by
  constructor
  · intro hc
    unfold HtmlHeuristics.addTag
    dsimp only
    by_cases h1 : byteLen (trimStr (lowerStr tagName)) = 0 ∨
        32 < byteLen (trimStr (lowerStr tagName)) ∨
        (alookup (trimStr (lowerStr tagName)) s.addedTags).isSome = true
    · rw [if_pos h1]
    · have h2 : 255 ≤ s.addedTags.length := by
        rcases hc with h | h | h | h
        · exact absurd (Or.inl h) h1
        · exact absurd (Or.inr (Or.inl h)) h1
        · exact absurd (Or.inr (Or.inr h)) h1
        · exact h
      rw [if_neg h1, if_pos h2]
  · intro s2 h
    exact addTag_success_lookup h

/-- C2 witness: the empty name fails on a fresh table. -/
theorem addTag_failure_and_id_witness :
    HtmlHeuristics.addTag HtmlHeuristics.empty "" "" = some (HtmlHeuristics.empty, false) :=
  (addTag_failure_and_id HtmlHeuristics.empty "" "").1 (Or.inl (by decide))

/-- C2 counterexample: on a table holding only "abcd", registering
"xbzd" — nonempty, at most 32 bytes, unregistered, table far below 255
names — still returns failure, because the hash slot the registration
derives from "xbzd" is already occupied by the one derived from "abcd";
so the four listed conditions do not characterise failure exactly. -/
theorem addTag_collision_failure :
    (HtmlHeuristics.addTag HtmlHeuristics.empty "abcd" "").map Prod.snd = some true ∧
    byteLen (trimStr (lowerStr "xbzd")) ≠ 0 ∧
    byteLen (trimStr (lowerStr "xbzd")) ≤ 32 ∧
    alookup (trimStr (lowerStr "xbzd")) afterAbcd.addedTags = none ∧
    afterAbcd.addedTags.length < 255 ∧
    (HtmlHeuristics.addTag afterAbcd "xbzd" "").map Prod.snd = some false := by
  decide

/-- C7: after a successful registration of a name, registering the same
name again returns failure and the very same table state: the duplicate
check fires before any mutation, so the chars matrix, stored strings,
tag data, attribute tables and registered-name maps are all returned
unchanged. -/
theorem addTag_duplicate_noop (s s2 : HtmlHeuristics) (tagName attrNames attrNames2 : String)
    (h : HtmlHeuristics.addTag s tagName attrNames = some (s2, true)) :
    HtmlHeuristics.addTag s2 tagName attrNames2 = some (s2, false) := by
  have hl := addTag_success_lookup h
  unfold HtmlHeuristics.addTag
  dsimp only
  rw [if_pos]
  exact Or.inr (Or.inr (by rw [hl]; rfl))

/-- C7 witness: registering "html" twice on a fresh table. -/
theorem addTag_duplicate_noop_witness :
    HtmlHeuristics.addTag HtmlHeuristics.empty "html" "" = some (afterHtml, true) ∧
    HtmlHeuristics.addTag afterHtml "html" "" = some (afterHtml, false) := by
  have h1 : HtmlHeuristics.addTag HtmlHeuristics.empty "html" "" = some (afterHtml, true) := by
    decide
  exact ⟨h1, addTag_duplicate_noop _ _ _ _ _ h1⟩

/-- C9: evaluation at the failing input: `HtmlParser::new` does not
complete — its very first seeded tag is the one-char name "a", whose
registration reads the char at index 1 of the name, out of bounds, so
construction panics instead of terminating normally. -/
theorem htmlParserNew_panics :
    htmlParserNew = none ∧
    HtmlHeuristics.addTag HtmlHeuristics.empty "a" "href" = none :=
  ⟨rfl, by decide⟩

/-- C4: evaluation at the failing input: for every codec, `append` of
the char with code point 256 writes the truncated byte 0 straight into
the scratch buffer — the source compares `ch as u8 <= 127`, the code
point mod 256 — and never consults the codec, although the claim
requires every code point above 127 to be encoded through it. -/
theorem append_truncates_code_point (enc : Char → List Nat) :
    DynamicString.append enc (DynamicString.new "") (Char.ofNat 256) =
      some { text := "", buffer := [(0, 0)], bufferPos := 1, length := 0 } := rfl

/-- C10: `clear` empties the tag and html strings, lowers closure,
end_closure, comments, entities and lt_entity, zeroes params_count and
clears the parameter map in mapping mode, while chunk_type,
chunk_offset, chunk_length, hash_mode, the encoder and the param_names,
param_values and param_chars arrays keep their values. -/
theorem clear_resets_and_preserves (c : HtmlChunk) :
    (HtmlChunk.clear c).tag = "" ∧
    (HtmlChunk.clear c).html = "" ∧
    (HtmlChunk.clear c).closure = false ∧
    (HtmlChunk.clear c).endClosure = false ∧
    (HtmlChunk.clear c).comments = false ∧
    (HtmlChunk.clear c).entities = false ∧
    (HtmlChunk.clear c).ltEntity = false ∧
    (HtmlChunk.clear c).paramsCount = 0 ∧
    (HtmlChunk.clear c).params =
      (if c.hashMode then c.params.map (fun _ => ([] : List (String × String)))
       else c.params) ∧
    (HtmlChunk.clear c).chunkType = c.chunkType ∧
    (HtmlChunk.clear c).chunkOffset = c.chunkOffset ∧
    (HtmlChunk.clear c).chunkLength = c.chunkLength ∧
    (HtmlChunk.clear c).hashMode = c.hashMode ∧
    (HtmlChunk.clear c).enc = c.enc ∧
    (HtmlChunk.clear c).paramNames = c.paramNames ∧
    (HtmlChunk.clear c).paramValues = c.paramValues ∧
    (HtmlChunk.clear c).paramChars = c.paramChars := by
  cases hm : c.hashMode <;> cases hp : c.params <;>
    simp [HtmlChunk.clear, hm, hp]

theorem append_ascii_step (s : DynamicString) (h : s.bufferPos < TEXT_CAPACITY + 1) :
    DynamicString.append dummyEnc s (Char.ofNat 97) =
      some { s with buffer := (s.bufferPos, 97) :: s.buffer, bufferPos := s.bufferPos + 1 } := by
  have hc : (Char.ofNat 97).toNat % 256 ≤ 127 := by decide
  have hb : (Char.ofNat 97).toNat % 256 % 256 = 97 := by decide
  simp [DynamicString.append, writeBuf, hc, hb, h]

theorem append_ascii_oob (s : DynamicString) (h : ¬ s.bufferPos < TEXT_CAPACITY + 1) :
    DynamicString.append dummyEnc s (Char.ofNat 97) = none := by
  have hc : (Char.ofNat 97).toNat % 256 ≤ 127 := by decide
  simp [DynamicString.append, writeBuf, hc, h]

theorem appendChars_fill (n : Nat) : ∀ s : DynamicString,
    s.bufferPos + n ≤ TEXT_CAPACITY + 1 →
    ∃ s2, appendChars dummyEnc s (List.replicate n (Char.ofNat 97)) = some s2 ∧
      s2.bufferPos = s.bufferPos + n := by
  induction n with
  | zero =>
    intro s h
    exact ⟨s, rfl, by omega⟩
  | succ m ih =>
    intro s h
    have hlt : s.bufferPos < TEXT_CAPACITY + 1 := by omega
    obtain ⟨s2, h2, hpos⟩ :=
      ih { s with buffer := (s.bufferPos, 97) :: s.buffer, bufferPos := s.bufferPos + 1 }
        (by dsimp; omega)
    refine ⟨s2, ?_, ?_⟩
    · rw [List.replicate_succ]
      simp only [appendChars, append_ascii_step s hlt]
      exact h2
    · rw [hpos]
      dsimp
      omega

theorem appendChars_overflow (n : Nat) : ∀ s : DynamicString,
    s.bufferPos ≤ TEXT_CAPACITY + 1 →
    TEXT_CAPACITY + 1 < s.bufferPos + n →
    appendChars dummyEnc s (List.replicate n (Char.ofNat 97)) = none := by
  induction n with
  | zero =>
    intro s h1 h2
    omega
  | succ m ih =>
    intro s h1 h2
    rw [List.replicate_succ]
    by_cases hc : s.bufferPos < TEXT_CAPACITY + 1
    · simp only [appendChars, append_ascii_step s hc]
      exact ih _ (by dsimp; omega) (by dsimp; omega)
    · simp only [appendChars, append_ascii_oob s hc]

/-- C3: evaluation at the failing input: the append cursor is bounded by
nothing but the array itself — TEXT_CAPACITY + 1 successive appends fill
the scratch buffer without any flush ever happening, and one more append
writes out of bounds (a panic): `append` contains no flush, so the
claimed flush-before-overflow invariant fails. -/
theorem append_overflow_panics :
    (appendN (TEXT_CAPACITY + 1)).isSome = true ∧
    appendN (TEXT_CAPACITY + 2) = none := by
  constructor
  · obtain ⟨s2, h2, _⟩ :=
      appendChars_fill (TEXT_CAPACITY + 1) (DynamicString.new "") (by norm_num [DynamicString.new])
    unfold appendN
    rw [h2]
    rfl
  · exact appendChars_overflow (TEXT_CAPACITY + 2) (DynamicString.new "")
      (by norm_num [DynamicString.new]) (by norm_num [DynamicString.new])

theorem flatMapRange_getElem :
    ∀ (M : Nat) (f : Nat → Nat → String) (K a b : Nat), a < M → b < K →
      ((List.range M).flatMap (fun i => (List.range K).map (f i)))[a * K + b]? = some (f a b) := by
  intro M
  induction M with
  | zero =>
    intro f K a b ha hb
    exact absurd ha (Nat.not_lt_zero a)
  | succ M ih =>
    intro f K a b ha hb
    rw [List.range_succ_eq_map, List.flatMap_cons, List.flatMap_map]
    cases a with
    | zero =>
      rw [Nat.zero_mul, Nat.zero_add]
      rw [List.getElem?_append_left (by simpa using hb)]
      rw [List.getElem?_map, List.getElem?_range hb]
      rfl
    | succ a2 =>
      have hK : ((List.range K).map (f 0)).length = K := by simp
      have hidx : (a2 + 1) * K + b = K + (a2 * K + b) := by ring
      rw [hidx, List.getElem?_append_right (by rw [hK]; exact Nat.le_add_right _ _)]
      rw [hK, Nat.add_sub_cancel_left]
      exact ih (fun i => f (i + 1)) K a2 b (by omega) hb

/-- C6: evaluation at the failing input: `get_two_char_string(1, 0)`
returns the two-char string of the pair (1, 1), not (1, 0): the cache is
laid out with stride 255 — both construction loops exclude 255 — but
indexed with stride 256, so the claimed pair string is not what comes
back. -/
theorem getTwoCharString_wrong_pair :
    getTwoCharString 1 0 = some (String.mk [Char.ofNat 1, Char.ofNat 1]) ∧
    String.mk [Char.ofNat 1, Char.ofNat 1] ≠ String.mk [Char.ofNat 1, Char.ofNat 0] := by
  constructor
  · have h := flatMapRange_getElem 255 (fun i j => String.mk [Char.ofNat i, Char.ofNat j]) 255 1 1
      (by norm_num) (by norm_num)
    unfold getTwoCharString allTwoChars
    norm_num at h ⊢
    exact h
  · decide

theorem flatten_map_escape_id (q : Char) :
    ∀ l : List Char, (∀ c ∈ l, c ≠ q) → ((l.map (escapeChar q)).flatten) = l := by
  intro l
  induction l with
  | nil => intro h; rfl
  | cons c t ih =>
    intro h
    have hc : c ≠ q := h c (List.mem_cons_self c t)
    simp only [List.map_cons, List.flatten_cons, escapeChar, if_neg hc]
    rw [ih (fun x hx => h x (List.mem_cons_of_mem c hx))]
    rfl

theorem msEscapeLoop_spec (line : String) (q : Char) :
    ∀ (fuel j : Nat), j + fuel ≤ line.data.length →
      msEscapeLoop line q fuel j =
        some ((((line.data.drop j).take fuel).map (escapeChar q)).flatten) := by
  intro fuel
  induction fuel with
  | zero =>
    intro j h
    simp [msEscapeLoop]
  | succ m ih =>
    intro j h
    have hj : j < line.data.length := by omega
    simp only [msEscapeLoop]
    rw [List.getElem?_eq_getElem hj]
    rw [ih (j + 1) (by omega)]
    rw [List.drop_eq_getElem_cons hj, List.take_succ_cons]
    simp [List.flatten_cons]

theorem msFindLoop_spec (line : String) (q : Char) (hA : byteLen line = line.data.length) :
    ∀ (fuel i : Nat), i + fuel = line.data.length →
      (∀ c ∈ line.data.take i, c ≠ q) →
      msFindLoop line q fuel i =
        some (String.mk ((line.data.map (escapeChar q)).flatten)) := by
  intro fuel
  induction fuel with
  | zero =>
    intro i hi hpre
    have hi2 : i = line.data.length := by omega
    rw [hi2, List.take_length] at hpre
    simp only [msFindLoop]
    rw [flatten_map_escape_id q line.data hpre]
  | succ m ih =>
    intro i hi hpre
    have hj : i < line.data.length := by omega
    simp only [msFindLoop]
    rw [List.getElem?_eq_getElem hj]
    dsimp only
    by_cases hcq : line.data[i] = q
    · rw [if_pos hcq]
      rw [hA]
      have hE := msEscapeLoop_spec line q (line.data.length - i) i (by omega)
      rw [hE]
      have hdt : (line.data.drop i).take (line.data.length - i) = line.data.drop i := by
        apply List.take_of_length_le
        rw [List.length_drop]
      rw [hdt]
      conv_rhs => rw [← List.take_append_drop i line.data]
      rw [List.map_append, List.flatten_append]
      rw [flatten_map_escape_id q _ hpre]
    · rw [if_neg hcq]
      apply ih (i + 1) (by omega)
      intro c hc
      rw [List.take_succ, List.getElem?_eq_getElem hj] at hc
      rcases List.mem_append.mp hc with h1 | h2
      · exact hpre c h1
      · have : c = line.data[i] := by simpa using h2
        rw [this]
        exact hcq

theorem msEscapeLoop_oob (line : String) (q : Char) :
    ∀ (fuel j : Nat), line.data.length < j + fuel → j ≤ line.data.length →
      msEscapeLoop line q fuel j = none := by
  intro fuel
  induction fuel with
  | zero =>
    intro j h1 h2
    omega
  | succ m ih =>
    intro j h1 h2
    simp only [msEscapeLoop]
    by_cases hj : j < line.data.length
    · rw [List.getElem?_eq_getElem hj]
      dsimp only
      rw [ih (j + 1) (by omega) (by omega)]
    · rw [List.getElem?_eq_none (by omega)]

theorem msFindLoop_oob (line : String) (q : Char) (hlt : line.data.length < byteLen line) :
    ∀ (fuel i : Nat), i + fuel = byteLen line → i ≤ line.data.length →
      msFindLoop line q fuel i = none := by
  intro fuel
  induction fuel with
  | zero =>
    intro i h1 h2
    omega
  | succ m ih =>
    intro i h1 h2
    simp only [msFindLoop]
    by_cases hi : i < line.data.length
    · rw [List.getElem?_eq_getElem hi]
      dsimp only
      by_cases hq : line.data[i] = q
      · rw [if_pos hq]
        rw [msEscapeLoop_oob line q (byteLen line - i) i (by omega) (by omega)]
      · rw [if_neg hq]
        exact ih (i + 1) (by omega) (by omega)
    · rw [List.getElem?_eq_none (by omega)]

theorem makeSafeParamValue_oob (line : String) (q : Char)
    (hlt : line.data.length < byteLen line) :
    makeSafeParamValue line q = none := by
  unfold makeSafeParamValue
  exact msFindLoop_oob line q hlt (byteLen line) 0 (by omega) (by omega)

theorem makeSafeParamValue_spec (line : String) (q : Char)
    (hA : byteLen line = line.data.length) :
    makeSafeParamValue line q = some (escapeQuotesRef line q) := by
  unfold makeSafeParamValue escapeQuotesRef
  rw [hA]
  exact msFindLoop_spec line q hA line.data.length 0 (by omega) (by simp)

/-- C5 (amended): for a value whose byte length equals its char count
(an all-ASCII value, as in all the claim's examples): an empty value
emits the bare name; a value longer than 20 bytes is wrapped in the
recorded original quote char with every occurrence of that char
replaced by its numeric character reference; a shorter value is quoted
exactly when it holds whitespace or a quote char, and then it is always
wrapped in the single-quote char — not the alternate of the quote it
contains — with every single quote inside escaped as a numeric
character reference; otherwise it is emitted bare. A value longer than
20 bytes whose char count is below its byte length (it contains a
multibyte char) is not quoted at all: make_safe_param_value iterates
byte-length indices through char lookups and panics. -/
theorem generateParamHtml_spec (name val : String) (ch : Char) :
    (byteLen val = val.data.length →
      generateParamHtml name val ch =
        if byteLen val = 0 then some name
        else if 20 < byteLen val then
          some (name ++ "=" ++ ch.toString ++ escapeQuotesRef val ch ++ ch.toString)
        else if val.data.any isSpecialParamChar then
          some (name ++ "=" ++ squote.toString ++ escapeQuotesRef val squote ++ squote.toString)
        else some (name ++ "=" ++ val)) ∧
    (val.data.length < byteLen val → 20 < byteLen val →
      generateParamHtml name val ch = none) := by
  constructor
  · intro hA
    unfold generateParamHtml
    by_cases h0 : byteLen val = 0
    · rw [if_neg (by omega), if_pos h0]
    · rw [if_pos (by omega), if_neg h0]
      by_cases h20 : 20 < byteLen val
      · rw [if_pos h20, if_pos h20, makeSafeParamValue_spec val ch hA]
      · rw [if_neg h20, if_neg h20]
        by_cases hany : val.data.any isSpecialParamChar
        · rw [if_pos hany, if_pos hany, makeSafeParamValue_spec val squote hA]
        · rw [if_neg hany, if_neg hany]
  · intro hlt h20
    unfold generateParamHtml
    rw [if_pos (by omega), if_pos h20]
    rw [makeSafeParamValue_oob val ch hlt]

/-- C5 witness: a short special-free value is emitted bare, and a
21-byte value holding a two-byte char makes regeneration panic. -/
theorem generateParamHtml_spec_witness :
    generateParamHtml "n" "ab" (Char.ofNat 34) = some ("n=" ++ "ab") ∧
    generateParamHtml "x"
      (String.mk (List.replicate 19 (Char.ofNat 97) ++ [Char.ofNat 233])) dquote = none := by
  constructor
  · rw [(generateParamHtml_spec "n" "ab" (Char.ofNat 34)).1 (by decide)]
    decide
  · exact (generateParamHtml_spec "x"
      (String.mk (List.replicate 19 (Char.ofNat 97) ++ [Char.ofNat 233])) dquote).2
      (by decide) (by decide)

/-- C5 counterexample: two refutations of the claim as stated. The
three-byte value with chars 97 39 98 holds a single-quote char;
regenerated with the recorded quote char being the double quote, the
code wraps it in single quotes (the same char the value contains,
escaped to &#39;), not in the alternate double-quote wrapping the claim
requires. And the 21-byte value of 19 chars 97 followed by the two-byte
char 233 is not quoted at all: regeneration panics in
make_safe_param_value, refuting "every attribute value longer than 20
bytes is quoted". -/
theorem generateParamHtml_wraps_same_quote :
    (generateParamHtml "x" (String.mk [Char.ofNat 97, Char.ofNat 39, Char.ofNat 98]) dquote =
      some ("x=" ++ squote.toString ++ "a&#39;b" ++ squote.toString) ∧
    ("x=" ++ squote.toString ++ "a&#39;b" ++ squote.toString) ≠
      ("x=" ++ dquote.toString ++ "a" ++ squote.toString ++ "b" ++ dquote.toString)) ∧
    (20 < byteLen (String.mk (List.replicate 19 (Char.ofNat 97) ++ [Char.ofNat 233])) ∧
    generateParamHtml "x"
      (String.mk (List.replicate 19 (Char.ofNat 97) ++ [Char.ofNat 233])) dquote = none) := by
  exact ⟨by decide, by decide, by decide⟩

theorem findFromAux_spec (p : Nat → Bool) (len : Nat) :
    ∀ (fuel i j : Nat), findFromAux p len fuel i = some j →
      i ≤ j ∧ j < len ∧ p j = true := by
  intro fuel
  induction fuel with
  | zero =>
    intro i j h
    simp [findFromAux] at h
  | succ m ih =>
    intro i j h
    rw [findFromAux] at h
    split at h
    · split at h
      · rename_i hlt hp
        cases h
        exact ⟨Nat.le_refl i, hlt, hp⟩
      · have hr := ih (i + 1) j h
        exact ⟨by omega, hr.2.1, hr.2.2⟩
    · simp at h

theorem findFrom_spec {p : Nat → Bool} {len i j : Nat} (h : findFrom p len i = some j) :
    i ≤ j ∧ j < len ∧ p j = true :=
  findFromAux_spec p len (len - i) i j h

theorem matchesAt_bound {buf : List Nat} {j : Nat} {pat : List Nat} (hp : pat ≠ [])
    (h : matchesAt buf j pat = true) : j + pat.length ≤ buf.length := by
  have he : (buf.drop j).take pat.length = pat := of_decide_eq_true h
  have hlen : ((buf.drop j).take pat.length).length = pat.length := by rw [he]
  rw [List.length_take, List.length_drop] at hlen
  have hple : pat.length ≤ buf.length - j := by
    rcases Nat.le_total pat.length (buf.length - j) with hle | hle
    · exact hle
    · rw [Nat.min_eq_right hle] at hlen
      omega
  have hpos : 0 < pat.length := List.length_pos.mpr hp
  omega

theorem scanEndPat_bounds {buf : List Nat} {start : Nat} {pat : List Nat} {p0 : Nat}
    (hp : pat ≠ []) (h0 : p0 < buf.length) (hs : p0 < start) :
    p0 < scanEndPat buf start pat ∧ scanEndPat buf start pat ≤ buf.length := by
  unfold scanEndPat
  cases hf : findFrom (fun j => matchesAt buf j pat) buf.length start with
  | none => exact ⟨h0, Nat.le_refl _⟩
  | some j =>
    obtain ⟨hij, hjlen, hpj⟩ := findFrom_spec hf
    have hb := matchesAt_bound hp hpj
    dsimp only
    exact ⟨by omega, hb⟩

/-- C8: totality of the (spec-modelled) get-next-token operation: at any
cursor before the end of the buffer it returns a chunk — never an
error — whose extent stays inside the buffer and strictly advances the
cursor (so every buffer yields a finite chunk sequence, malformed or
truncated markup included); the end-of-input signal `none` is produced
exactly at or past the end of the buffer. -/
theorem nextTokenModel_total (buf : List Nat) (pos : Nat) :
    match nextTokenModel buf pos with
    | some (_, p2) => pos < buf.length ∧ pos < p2 ∧ p2 ≤ buf.length
    | none => buf.length ≤ pos := by
  unfold nextTokenModel
  by_cases h : pos < buf.length
  · rw [if_pos h]
    cases hf : findFrom (fun j => matchesAt buf j [60]) buf.length pos with
    | none =>
      exact ⟨h, h, Nat.le_refl _⟩
    | some k =>
      dsimp only
      obtain ⟨hik, hklen, hk60⟩ := findFrom_spec hf
      by_cases hkp : pos < k
      · rw [if_pos hkp]
        exact ⟨h, hkp, Nat.le_of_lt hklen⟩
      · rw [if_neg hkp]
        by_cases h47 : byteAt buf (pos + 1) = 47
        · rw [if_pos h47]
          dsimp only
          exact ⟨h, (scanEndPat_bounds (by decide) h (by omega)).1,
            (scanEndPat_bounds (by decide) h (by omega)).2⟩
        · rw [if_neg h47]
          by_cases hcm : matchesAt buf (pos + 1) [33, 45, 45] = true
          · rw [if_pos hcm]
            dsimp only
            exact ⟨h, (scanEndPat_bounds (by decide) h (by omega)).1,
              (scanEndPat_bounds (by decide) h (by omega)).2⟩
          · rw [if_neg hcm]
            by_cases hcd : matchesAt buf (pos + 1) [33, 91, 67, 68, 65, 84, 65, 91] = true
            · rw [if_pos hcd]
              dsimp only
              exact ⟨h, (scanEndPat_bounds (by decide) h (by omega)).1,
                (scanEndPat_bounds (by decide) h (by omega)).2⟩
            · rw [if_neg hcd]
              by_cases hsc : matchesAt buf (pos + 1) [115, 99, 114, 105, 112, 116] = true
              · rw [if_pos hsc]
                dsimp only
                exact ⟨h, (scanEndPat_bounds (by decide) h (by omega)).1,
                  (scanEndPat_bounds (by decide) h (by omega)).2⟩
              · rw [if_neg hsc]
                by_cases hlet : isLetterByte (byteAt buf (pos + 1)) = true
                · rw [if_pos hlet]
                  dsimp only
                  exact ⟨h, (scanEndPat_bounds (by decide) h (by omega)).1,
                    (scanEndPat_bounds (by decide) h (by omega)).2⟩
                · rw [if_neg hlet]
                  cases hf2 : findFrom (fun j => matchesAt buf j [60]) buf.length (pos + 1) with
                  | none => exact ⟨h, h, Nat.le_refl _⟩
                  | some k2 =>
                    dsimp only
                    obtain ⟨hik2, hk2len, _⟩ := findFrom_spec hf2
                    exact ⟨h, by omega, Nat.le_of_lt hk2len⟩
  · rw [if_neg h]
    dsimp only
    omega
